import Mathlib

/-!
Verification of the cs143b/Project3 virtual-memory core (`bit_map.cpp`,
`virtual_address.cpp`, `tlb.cpp`, `vm_system.cpp`) against its specification.

Modelling conventions:
* C++ `int` values are modelled as `Int`; bit indices and counters as `Nat`.
* Array accesses are bounds-checked in the model: an access the C++ code
  performs outside the allocated array (undefined behaviour) is modelled as a
  failure (`Option.none`, or a dedicated error constructor for `BitMap`).
* The two exception channels of the C++ code (`MemoryException` and
  `std::out_of_range`) are modelled as distinct error values.
* Output written to `std::cout` is modelled as a list of tokens; the C++ code
  emits each token with `<<` and follows it with a single `" "`.
-/

/-- Errors of the `BitMap` search operations: `memEx` models a thrown
`MemoryException` ("bitmap out of space"), `outOfRange` models the thrown
`std::out_of_range` in `find_zero_starting_from`, and `oobRead` models an
unchecked out-of-bounds array read (`array[index]` with `index ≥ capacity`),
which is undefined behaviour in the C++ source. -/
inductive BmError where
  | memEx : BmError
  | outOfRange : BmError
  | oobRead : BmError
deriving DecidableEq

/-- Model of `class BitMap` (bit_map.cpp): `capacity` rows of 32-bit vectors.
The rows are flattened: linear position `n` is row `n / 32`, bit `n % 32`
(raster order, matching the nested row/bit loops of the source). Positions
`≥ 32 * capacity` are outside the C++ array. -/
structure BitMap where
  capacity : Nat
  bits : Nat → Bool

/-- Model of `BitMap::BitMap(cap)` together with `BitMap::clear()`: all rows reset. -/
def BitMap.mkClear (cap : Nat) : BitMap :=
  { capacity := cap, bits := fun _ => false }

/-- Model of `BitMap::set(index, bit, value)` (bit_map.cpp lines 73-77): `check_bounds`
wraps `bit == 32` to bit 0 of the next row, which in linear position is again
`index * 32 + bit`; then the bit is written. Callers in the verified claims
always stay inside the array. -/
def BitMap.set (bm : BitMap) (index bit : Nat) (value : Bool) : BitMap :=
  { bm with bits := fun m => if m = index * 32 + bit then value else bm.bits m }

/-- The inner scan of `BitMap::find_zero_starting_from` (lines 92-102):
starting at linear position `k` with `remaining` positions left before the end
of the bitmap, return the first position holding a zero bit, or `none` if all
remaining bits are set. The nested row/bit `for` loops of the source visit
exactly the linear positions `k, k+1, ...` in this order. -/
def BitMap.scanZeroAux (bm : BitMap) : Nat → Nat → Option Nat
  | 0, _ => none
  | remaining + 1, k => if bm.bits k = false then some k else bm.scanZeroAux remaining (k + 1)

/-- Scan for the first zero bit at linear position `≥ k` (strictly inside the
bitmap), as performed by the loops of `find_zero_starting_from`. -/
def BitMap.scanZero (bm : BitMap) (k : Nat) : Option Nat :=
  bm.scanZeroAux (32 * bm.capacity - k) k

/-- Model of `BitMap::find_zero_starting_from(index, bit)` (bit_map.cpp lines 79-104):
throws `std::out_of_range` if `index ≥ size()`; treats `bit == 32` as bit 0 of
the same row (the source resets `bit` to 0 without advancing `index`); then
scans forward in raster order and throws `MemoryException` if no zero bit
remains. -/
def BitMap.find_zero_starting_from (bm : BitMap) (index bit : Nat) : Except BmError (Nat × Nat) :=
  if bm.capacity ≤ index then .error .outOfRange
  else
    match bm.scanZero (index * 32 + (if bit = 32 then 0 else bit)) with
    | some n => .ok (n / 32, n % 32)
    | none => .error .memEx

/-- Model of `BitMap::find_first_zero()` (bit_map.cpp lines 45-48): scan from (0, 1),
skipping the reserved segment-table bit (0, 0). -/
def BitMap.find_first_zero (bm : BitMap) : Except BmError (Nat × Nat) :=
  bm.find_zero_starting_from 0 1

/-- The loop of `BitMap::find_consecutive_zeros` (bit_map.cpp lines 50-71) on
linear positions. Each iteration: the `while (index < size())` guard; the call
`find_zero_starting_from(index, bit)` returning the first zero at position
`n ≥ k` (its `MemoryException` propagates); `check_bounds` on the following
position `n + 1` — if `n + 1` is already past the last row the subsequent
`array[first].test(second)` reads row `capacity`, out of bounds (`oobRead`);
otherwise, if bit `n + 1` is also zero the pair is returned, else the scan
resumes at `n + 2` (the source sets `index`, `bit` to the position after the
tested one, with `check_bounds` row carry). The `fuel` argument only serves
Lean's termination checker; the entry point supplies more fuel than the loop
can consume, and fuel exhaustion coincides with the loop's exhaustion exit. -/
def BitMap.fczLin (bm : BitMap) : Nat → Nat → Except BmError Nat
  | 0, _ => .error .memEx
  | fuel + 1, k =>
    if k < 32 * bm.capacity then
      match bm.scanZero k with
      | none => .error .memEx
      | some n =>
        if n + 1 < 32 * bm.capacity then
          if bm.bits (n + 1) = true then bm.fczLin fuel (n + 2) else .ok n
        else .error .oobRead
    else .error .memEx

/-- Model of `BitMap::find_consecutive_zeros()` (bit_map.cpp lines 50-71): run the loop
from position (0, 1) and report the found pair in row/bit form. -/
def BitMap.find_consecutive_zeros (bm : BitMap) : Except BmError (Nat × Nat) :=
  (bm.fczLin (32 * bm.capacity + 2) 1).map (fun n => (n / 32, n % 32))

/-- The 32-bit two's-complement bit pattern of a C++ `int32_t` value, as built
by `std::bitset<32>{static_cast<unsigned long long>(addr)}` in the
`VirtualAddress` constructor (virtual_address.cpp line 5). -/
def int32Pattern (a : Int) : Nat :=
  (a.emod (2 ^ 32)).toNat

/-- Model of `class VirtualAddress` (virtual_address.cpp): an immutable wrapper
around the raw 32-bit address. -/
structure VirtualAddress where
  raw : Int

/-- The 28-bit value kept by `discard_bits(4)` (virtual_address.cpp lines
42-46): the bitset is printed most-significant-bit first and the first 4
characters are dropped, leaving the low 28 bits of the pattern. -/
def VirtualAddress.discarded (va : VirtualAddress) : Nat :=
  int32Pattern va.raw % 2 ^ 28

/-- Model of `VirtualAddress::segment_number()` (lines 14-19): the first 9 characters of
the 28-character string, i.e. bits 27..19 of the kept value. -/
def VirtualAddress.segment_number (va : VirtualAddress) : Nat :=
  va.discarded / 2 ^ 19

/-- Model of `VirtualAddress::page_number()` (lines 21-26): characters 9..18, i.e. bits
18..9 of the kept value. -/
def VirtualAddress.page_number (va : VirtualAddress) : Nat :=
  va.discarded / 2 ^ 9 % 2 ^ 10

/-- Model of `VirtualAddress::offset()` (lines 28-33): the last 9 characters, i.e. bits
8..0 of the kept value. -/
def VirtualAddress.offset (va : VirtualAddress) : Nat :=
  va.discarded % 2 ^ 9

/-- Model of `VirtualAddress::segment_and_page_number()` (lines 35-40): the first 19
characters, i.e. bits 27..9 of the kept value. -/
def VirtualAddress.segment_and_page_number (va : VirtualAddress) : Nat :=
  va.discarded / 2 ^ 9

/-- Model of `TranslationLookAsideBuffer::Entry` (tlb.hpp lines 20-25). -/
structure TLBEntry where
  lru_value : Int
  sp : Int
  f : Int
deriving DecidableEq

/-- Model of `class TranslationLookAsideBuffer` (tlb.cpp). `cache i` is the
entry at index `i`; indices `≥ capacity` are outside the C++ array. -/
structure TLB where
  capacity : Nat
  cache : Nat → TLBEntry

/-- The constructor plus `init_cache()` (tlb.cpp lines 5-9 and 79-85): every
entry becomes `{0, -1, -1}`. -/
def TLB.mkClear (cap : Nat) : TLB :=
  { capacity := cap, cache := fun _ => ⟨0, -1, -1⟩ }

/-- Model of `TranslationLookAsideBuffer::max_lru_value()` (tlb.cpp lines 29-32). -/
def TLB.max_lru_value (t : TLB) : Int :=
  (t.capacity : Int) - 1

/-- The loop of `find_index_with_value` (tlb.cpp lines 66-77) scanning from
index `i` with `remaining` entries left: stops at the first entry whose
`lru_value` equals `value`; if none matches, the loop runs `i` up to
`capacity` and returns it. -/
def TLB.fiwvAux (t : TLB) (value : Int) : Nat → Nat → Nat
  | 0, i => i
  | remaining + 1, i =>
    if (t.cache i).lru_value = value then i else t.fiwvAux value remaining (i + 1)

/-- Model of `TranslationLookAsideBuffer::find_index_with_value(value)` (tlb.cpp lines
66-77): index of the first entry with the given `lru_value`, or `capacity` if
there is none. -/
def TLB.find_index_with_value (t : TLB) (value : Int) : Nat :=
  t.fiwvAux value t.capacity 0

/-- The loop of `hit_index` (tlb.cpp lines 16-27) scanning from index `i`. -/
def TLB.hitIdxAux (t : TLB) (sp : Int) : Nat → Nat → Int
  | 0, _ => -1
  | remaining + 1, i =>
    if (t.cache i).sp = sp then (i : Int) else t.hitIdxAux sp remaining (i + 1)

/-- Model of `TranslationLookAsideBuffer::hit_index(sp)` (tlb.cpp lines 16-27): index of
the first entry whose key equals `sp`, or -1. -/
def TLB.hit_index (t : TLB) (sp : Int) : Int :=
  t.hitIdxAux sp t.capacity 0

/-- Model of `TranslationLookAsideBuffer::do_miss(sp, frame)` (tlb.cpp lines 49-64):
the victim is the entry found by `find_index_with_value(0)`; it receives
`{max_lru_value(), sp, frame}` and every other entry's `lru_value` is
decremented. When no entry has `lru_value == 0`, `find_index_with_value`
returns `capacity` and the C++ code writes `cache[capacity]` — an
out-of-bounds write, modelled as `none`. -/
def TLB.do_miss (t : TLB) (sp frame : Int) : Option TLB :=
  let lowest := t.find_index_with_value 0
  if lowest < t.capacity then
    some { t with cache := fun i =>
      if i = lowest then ⟨t.max_lru_value, sp, frame⟩
      else ⟨(t.cache i).lru_value - 1, (t.cache i).sp, (t.cache i).f⟩ }
  else none

/-- Model of `TranslationLookAsideBuffer::do_hit(sp, line)` (tlb.cpp lines 34-47):
every entry whose `lru_value` is strictly below the hit entry's is
decremented (the hit entry itself never satisfies this test), the hit entry's
`lru_value` becomes `max_lru_value()`, and the cached frame is returned. A
`line` outside the cache would be an out-of-bounds access, modelled as
`none`. -/
def TLB.do_hit (t : TLB) (sp : Int) (line : Nat) : Option (Int × TLB) :=
  if line < t.capacity then
    some ((t.cache line).f,
      { t with cache := fun i =>
          if i = line then
            ⟨t.max_lru_value, (t.cache line).sp, (t.cache line).f⟩
          else if (t.cache i).lru_value < (t.cache line).lru_value then
            ⟨(t.cache i).lru_value - 1, (t.cache i).sp, (t.cache i).f⟩
          else
            t.cache i })
  else none

/-- Output tokens of the translation paths: `std::cout << "pf"`,
`<< "err"`, `<< <decimal address>` and `<< " "` (vm_system.cpp). -/
inductive Tok where
  | pf : Tok
  | err : Tok
  | space : Tok
  | addr : Int → Tok
deriving DecidableEq

/-- Model of `VirtualMemorySystem::PM_SIZE = FRAME_SIZE(512) * N_FRAMES(1024)`
(vm_system.cpp lines 6-8). -/
def PM_SIZE : Int := 512 * 1024

/-- State of a `VirtualMemorySystem` (vm_system.hpp lines 44-45): the
`physical_memory` array of `PM_SIZE` ints and the frame `BitMap` (the TLB is
modelled separately, as the direct path never touches it). Indices outside
`[0, PM_SIZE)` are outside the C++ array. -/
structure VMState where
  pm : Int → Int
  bitMap : BitMap

/-- A read of `physical_memory[i]`: the C++ array subscript is only defined
for `0 ≤ i < PM_SIZE`; anything else is an out-of-bounds access, modelled as
`none`. -/
def pmRead (st : VMState) (i : Int) : Option Int :=
  if 0 ≤ i ∧ i < PM_SIZE then some (st.pm i) else none

/-- A write `physical_memory[i] = v`, bounds-checked like `pmRead`. -/
def pmWrite (st : VMState) (i v : Int) : Option VMState :=
  if 0 ≤ i ∧ i < PM_SIZE then
    some { st with pm := fun j => if j = i then v else st.pm j }
  else none

/-- The constructor `VirtualMemorySystem()` (vm_system.cpp lines 16-21):
physical memory zero-filled, a 32-row bitmap, and bit (0,0) set because the
segment table resides in frame 0. -/
def initialVM : VMState :=
  { pm := fun _ => 0, bitMap := (BitMap.mkClear 32).set 0 0 true }

/-- Model of `VirtualMemorySystem::clear()` (vm_system.cpp lines 217-221): re-fill
physical memory with 0 and `BitMap::clear()` — which resets every row,
including bit (0,0). -/
def VMState.clear (st : VMState) : VMState :=
  { pm := fun _ => 0, bitMap := { st.bitMap with bits := fun _ => false } }

/-- Model of `VirtualMemorySystem::get_frame_number(physical_address)` (vm_system.cpp
lines 172-180), with `index_capacity = FRAME_SIZE * bit_map.size()`; C++ `/`
and `%` on `int` truncate toward zero, i.e. `Int.div` / `Int.mod`. -/
def get_frame_number (bmCapacity : Nat) (physical_address : Int) : Int × Int :=
  (physical_address.tdiv (512 * bmCapacity), (physical_address.tdiv 512).tmod 32)

/-- Model of `VirtualMemorySystem::create_page_table(segment, address)` (vm_system.cpp
lines 29-41): store the page-table base in the segment entry and, unless the
address is -1, mark its two frames occupied. The verified claims only invoke
this with `address = -1` (the marking branch is skipped), so the `Int.toNat`
coercions of the frame coordinates are never exercised. -/
def create_page_table (st : VMState) (segment address : Int) : Option VMState := do
  let st1 ← pmWrite st segment address
  if address ≠ -1 then
    let frame := get_frame_number st1.bitMap.capacity address
    pure { st1 with bitMap :=
      (st1.bitMap.set frame.1.toNat frame.2.toNat true).set frame.1.toNat (frame.2.toNat + 1) true }
  else
    pure st1

/-- Model of `VirtualMemorySystem::get_page_table(segment, page)` (vm_system.cpp lines
23-27): `PM[PM[segment] + page]`. Note that the outer access is performed with
whatever value `PM[segment]` holds; with `PM[segment] = -1` and `page = 0` the
C++ code reads `physical_memory[-1]`. -/
def get_page_table (st : VMState) (segment page : Nat) : Option Int := do
  let pt_address ← pmRead st (segment : Int)
  pmRead st (pt_address + (page : Int))

/-- Model of `VirtualMemorySystem::read_no_tlb(va)` (vm_system.cpp lines 79-102):
look up the segment entry and the page entry, emit `pf` if either is -1,
`err` if either is 0, otherwise the resolved address `PT[s,p] + offset`; one
token plus one trailing space. The function is `const`: the returned state is
the input state. -/
def read_no_tlb (st : VMState) (va : VirtualAddress) : Option (List Tok × VMState) := do
  let segment_table ← pmRead st (va.segment_number : Int)
  let page_table ← get_page_table st va.segment_number va.page_number
  if segment_table = -1 ∨ page_table = -1 then
    pure ([Tok.pf, Tok.space], st)
  else if segment_table = 0 ∨ page_table = 0 then
    pure ([Tok.err, Tok.space], st)
  else
    pure ([Tok.addr (page_table + (va.offset : Int)), Tok.space], st)

/-- Model of `VirtualMemorySystem::allocate_new_page_table(segment)` (vm_system.cpp
lines 182-202): find two adjacent free frames, compute the page-table base
`location.first * (FRAME_SIZE * bit_map.size()) + location.second * FRAME_SIZE`,
throw `MemoryException` if the segment entry is not 0 (modelled as `none`),
store the base, and (the base, a `Nat`, is never -1) mark both frames. -/
def allocate_new_page_table (st : VMState) (segment : Nat) : Option VMState :=
  match st.bitMap.find_consecutive_zeros with
  | .error _ => none
  | .ok (r, b) => do
    let page_table_address : Int := ((r * (512 * st.bitMap.capacity) + b * 512 : Nat) : Int)
    let current ← pmRead st (segment : Int)
    if current ≠ 0 then none
    else do
      let st1 ← pmWrite st (segment : Int) page_table_address
      if page_table_address ≠ -1 then
        pure { st1 with bitMap := (st1.bitMap.set r b true).set r (b + 1) true }
      else
        pure st1

/-- Model of `VirtualMemorySystem::allocate_new_page(segment, page)` (vm_system.cpp
lines 204-215): find one free frame, store its base address in the page
entry `PM[PM[segment] + page]`, and mark the frame occupied. -/
def allocate_new_page (st : VMState) (segment page : Nat) : Option VMState :=
  match st.bitMap.find_first_zero with
  | .error _ => none
  | .ok (r, b) => do
    let next_free_address : Int := ((r * (512 * st.bitMap.capacity) + b * 512 : Nat) : Int)
    let page_table_address ← pmRead st (segment : Int)
    let st1 ← pmWrite st (page_table_address + (page : Int)) next_free_address
    pure { st1 with bitMap := st1.bitMap.set r b true }

/-- Model of `VirtualMemorySystem::write_no_tlb(va)` (vm_system.cpp lines 104-135):
like the read path, but a 0 segment entry triggers `allocate_new_page_table`
and a 0 page entry triggers `allocate_new_page`, each followed by a recursive
retry. The C++ recursion carries no fuel; the `fuel` argument only serves
Lean's termination checker and the returned `Nat` counts the retries actually
performed, so the termination claim is provable rather than built in. -/
def write_no_tlb : Nat → VMState → VirtualAddress → Option (List Tok × VMState × Nat)
  | 0, _, _ => none
  | fuel + 1, st, va => do
    let segment_table_entry ← pmRead st (va.segment_number : Int)
    let page_table_entry ← get_page_table st va.segment_number va.page_number
    if segment_table_entry = -1 ∨ page_table_entry = -1 then
      pure ([Tok.pf, Tok.space], st, 0)
    else if segment_table_entry = 0 then do
      let st1 ← allocate_new_page_table st va.segment_number
      let (out, st2, retries) ← write_no_tlb fuel st1 va
      pure (out, st2, retries + 1)
    else if page_table_entry = 0 then do
      let st1 ← allocate_new_page st va.segment_number va.page_number
      let (out, st2, retries) ← write_no_tlb fuel st1 va
      pure (out, st2, retries + 1)
    else
      pure ([Tok.addr (page_table_entry + (va.offset : Int)), Tok.space], st, 0)

/-- The conclusion of the `find_consecutive_zeros` functional-correctness
claim for a returned pair `(r, b)`: the pair denotes linear position
`32 * r + b`; it is the first position from (0,1) on whose bit and successor
bit are both zero, and after marking both bits occupied no later call returns
an overlapping pair. -/
def FczFirstPairSpec (bm : BitMap) (r b : Nat) : Prop :=
  b < 32 ∧
  1 ≤ 32 * r + b ∧
  32 * r + b + 1 < 32 * bm.capacity ∧
  bm.bits (32 * r + b) = false ∧
  bm.bits (32 * r + b + 1) = false ∧
  (∀ m, 1 ≤ m → m < 32 * r + b → bm.bits m = true ∨ bm.bits (m + 1) = true) ∧
  (∀ r2 b2, ((bm.set r b true).set r (b + 1) true).find_consecutive_zeros = .ok (r2, b2) →
    32 * r2 + b2 ≠ 32 * r + b ∧ 32 * r2 + b2 ≠ 32 * r + b + 1 ∧
    32 * r2 + b2 + 1 ≠ 32 * r + b ∧ 32 * r2 + b2 + 1 ≠ 32 * r + b + 1)

/-- A bitmap with every bit occupied: no free pattern of any kind remains. -/
def fullBitMap : BitMap :=
  { capacity := 32, bits := fun _ => true }

/-- A 32-row bitmap in which the single free bit is the very last position
(row 31, bit 31): no raster-adjacent pair of free bits exists. -/
def lastBitFreeBitMap : BitMap :=
  { capacity := 32, bits := fun n => n != 1023 }

theorem BitMap.scanZeroAux_some (bm : BitMap) (remaining k n : Nat)
    (h : bm.scanZeroAux remaining k = some n) :
    k ≤ n ∧ n < k + remaining ∧ bm.bits n = false ∧
      ∀ m, k ≤ m → m < n → bm.bits m = true := by
  induction remaining generalizing k with
  | zero => simp [BitMap.scanZeroAux] at h
  | succ r ih =>
    rw [BitMap.scanZeroAux] at h
    by_cases hk : bm.bits k = false
    · simp [hk] at h
      subst h
      exact ⟨Nat.le_refl _, by omega, hk, fun m h1 h2 => absurd (Nat.lt_of_le_of_lt h1 h2) (Nat.lt_irrefl _)⟩
    · simp [hk] at h
      obtain ⟨h1, h2, h3, h4⟩ := ih (k + 1) h
      refine ⟨by omega, by omega, h3, fun m hm1 hm2 => ?_⟩
      rcases Nat.eq_or_lt_of_le hm1 with heq | hlt
      · subst heq
        exact Bool.not_eq_false _ |>.mp hk
      · exact h4 m hlt hm2

theorem BitMap.scanZeroAux_none (bm : BitMap) (remaining k : Nat)
    (h : bm.scanZeroAux remaining k = none) :
    ∀ m, k ≤ m → m < k + remaining → bm.bits m = true := by
  induction remaining generalizing k with
  | zero => intro m h1 h2; omega
  | succ r ih =>
    rw [BitMap.scanZeroAux] at h
    by_cases hk : bm.bits k = false
    · simp [hk] at h
    · simp [hk] at h
      intro m h1 h2
      rcases Nat.eq_or_lt_of_le h1 with heq | hlt
      · subst heq
        exact Bool.not_eq_false _ |>.mp hk
      · exact ih (k + 1) h m hlt (by omega)

theorem BitMap.scanZero_some (bm : BitMap) (k n : Nat) (h : bm.scanZero k = some n) :
    k ≤ n ∧ n < 32 * bm.capacity ∧ bm.bits n = false ∧
      ∀ m, k ≤ m → m < n → bm.bits m = true := by
  obtain ⟨h1, h2, h3, h4⟩ := bm.scanZeroAux_some _ _ _ h
  exact ⟨h1, by omega, h3, h4⟩

theorem BitMap.scanZero_none (bm : BitMap) (k : Nat) (h : bm.scanZero k = none) :
    ∀ m, k ≤ m → m < 32 * bm.capacity → bm.bits m = true := by
  intro m h1 h2
  exact bm.scanZeroAux_none _ _ h m h1 (by omega)

theorem BitMap.scanZero_isSome (bm : BitMap) (k j : Nat) (hk : k ≤ j)
    (hj : j < 32 * bm.capacity) (hbit : bm.bits j = false) :
    ∃ n, bm.scanZero k = some n ∧ n ≤ j := by
  match h : bm.scanZero k with
  | some n =>
    obtain ⟨h1, h2, h3, h4⟩ := bm.scanZero_some k n h
    refine ⟨n, rfl, ?_⟩
    by_contra hlt
    exact absurd (h4 j hk (by omega)) (by simp [hbit])
  | none => exact absurd (bm.scanZero_none k h j hk hj) (by simp [hbit])

/-- Every pair returned by the `find_consecutive_zeros` loop starting at
position `k` is in range, both its bits are zero, and every earlier position
`≥ k` fails to start a zero pair. -/
theorem BitMap.fczLin_ok (bm : BitMap) (fuel k n : Nat) (h : bm.fczLin fuel k = .ok n) :
    k ≤ n ∧ n + 1 < 32 * bm.capacity ∧ bm.bits n = false ∧ bm.bits (n + 1) = false ∧
      ∀ m, k ≤ m → m < n → bm.bits m = true ∨ bm.bits (m + 1) = true := by
  induction fuel generalizing k with
  | zero => simp [BitMap.fczLin] at h
  | succ f ih =>
    rw [BitMap.fczLin] at h
    by_cases hk : k < 32 * bm.capacity
    · simp only [if_pos hk] at h
      match hscan : bm.scanZero k with
      | none => rw [hscan] at h; exact absurd h (by simp)
      | some n0 =>
        rw [hscan] at h
        obtain ⟨hkn0, hn0lt, hbit0, hfirst⟩ := bm.scanZero_some k n0 hscan
        by_cases hnext : n0 + 1 < 32 * bm.capacity
        · simp only [if_pos hnext] at h
          by_cases hb1 : bm.bits (n0 + 1) = true
          · simp only [hb1, if_pos rfl] at h
            obtain ⟨h1, h2, h3, h4, h5⟩ := ih (n0 + 2) h
            refine ⟨by omega, h2, h3, h4, fun m hm1 hm2 => ?_⟩
            by_cases hcase : m < n0
            · exact Or.inl (hfirst m hm1 hcase)
            · by_cases hcase2 : m = n0
              · subst hcase2; exact Or.inr hb1
              · by_cases hcase3 : m = n0 + 1
                · subst hcase3; exact Or.inl hb1
                · exact h5 m (by omega) hm2
          · rw [if_neg hb1] at h
            injection h with h
            subst h
            exact ⟨hkn0, hnext, hbit0, Bool.not_eq_true _ |>.mp hb1,
              fun m hm1 hm2 => Or.inl (hfirst m hm1 hm2)⟩
        · simp only [if_neg hnext] at h
          exact absurd h (by simp)
    · simp [if_neg hk] at h

/-- If from position `k` on no zero pair exists and the final bit of the bitmap
is occupied, the `find_consecutive_zeros` loop exits through its
`MemoryException` throw (and in particular performs no out-of-bounds row
access). This holds for every fuel value because fuel exhaustion and the
loop's exhaustion exit coincide. -/
theorem BitMap.fczLin_memEx (bm : BitMap) (fuel k : Nat)
    (hpair : ∀ m, k ≤ m → m + 1 < 32 * bm.capacity → bm.bits m = true ∨ bm.bits (m + 1) = true)
    (hlast : bm.bits (32 * bm.capacity - 1) = true) :
    bm.fczLin fuel k = .error .memEx := by
  induction fuel generalizing k with
  | zero => rw [BitMap.fczLin]
  | succ f ih =>
    rw [BitMap.fczLin]
    by_cases hk : k < 32 * bm.capacity
    · simp only [if_pos hk]
      match hscan : bm.scanZero k with
      | none => rfl
      | some n0 =>
        obtain ⟨hkn0, hn0lt, hbit0, hfirst⟩ := bm.scanZero_some k n0 hscan
        by_cases hnext : n0 + 1 < 32 * bm.capacity
        · simp only [if_pos hnext]
          rcases hpair n0 hkn0 hnext with hleft | hright
          · rw [hbit0] at hleft; exact absurd hleft (by simp)
          · simp only [hright, if_pos rfl]
            exact ih (n0 + 2) (fun m hm1 hm2 => hpair m (by omega) hm2)
        · have : n0 = 32 * bm.capacity - 1 := by omega
          rw [this, hlast] at hbit0
          exact absurd hbit0 (by simp)
    · simp [if_neg hk]

theorem VirtualAddress.discarded_lt (va : VirtualAddress) : va.discarded < 2 ^ 28 :=
  Nat.mod_lt _ (by norm_num)

theorem VirtualAddress.segment_number_lt (va : VirtualAddress) : va.segment_number < 512 :=
  Nat.div_lt_of_lt_mul (by have := va.discarded_lt; omega)

theorem VirtualAddress.page_number_lt (va : VirtualAddress) : va.page_number < 1024 :=
  Nat.mod_lt _ (by norm_num)

theorem VirtualAddress.offset_lt (va : VirtualAddress) : va.offset < 512 :=
  Nat.mod_lt _ (by norm_num)

/-- Claim C4: for every int32 input, the 9/10/9-bit slicing round-trips:
`segment_number * 2^19 + page_number * 2^9 + offset` equals the 28-bit value
left after discarding the 4 most-significant bits of the input's 32-bit
two's-complement pattern. -/
theorem virtual_address_slicing_roundtrip (a : Int)
    (h1 : -(2 ^ 31) ≤ a) (h2 : a < 2 ^ 31) :
    (VirtualAddress.mk a).segment_number * 2 ^ 19 +
      (VirtualAddress.mk a).page_number * 2 ^ 9 +
      (VirtualAddress.mk a).offset = int32Pattern a % 2 ^ 28 := by
  have hv : (VirtualAddress.mk a).discarded = int32Pattern a % 2 ^ 28 := rfl
  rw [VirtualAddress.segment_number, VirtualAddress.page_number, VirtualAddress.offset, hv]
  generalize int32Pattern a % 2 ^ 28 = v
  have e1 : 2 ^ 9 * (v / 2 ^ 9) + v % 2 ^ 9 = v := Nat.div_add_mod v (2 ^ 9)
  have e2 : 2 ^ 10 * (v / 2 ^ 9 / 2 ^ 10) + v / 2 ^ 9 % 2 ^ 10 = v / 2 ^ 9 :=
    Nat.div_add_mod (v / 2 ^ 9) (2 ^ 10)
  have e3 : v / 2 ^ 9 / 2 ^ 10 = v / 2 ^ 19 := by
    rw [Nat.div_div_eq_div_mul]
    norm_num
  omega

/-- Witness for C4 at the negative input -5. -/
theorem virtual_address_slicing_roundtrip_witness :
    (-(2 ^ 31) ≤ (-5 : Int) ∧ (-5 : Int) < 2 ^ 31) ∧
      (VirtualAddress.mk (-5)).segment_number * 2 ^ 19 +
        (VirtualAddress.mk (-5)).page_number * 2 ^ 9 +
        (VirtualAddress.mk (-5)).offset = int32Pattern (-5) % 2 ^ 28 :=
  ⟨by decide, virtual_address_slicing_roundtrip (-5) (by decide) (by decide)⟩

/-- Claim C10: construction and all accessors are total, and the fields are
bounded: `segment_number < 512`, `page_number < 1024`, `offset < 512`, and
`segment_and_page_number = segment_number * 2^10 + page_number < 2^19`. -/
theorem virtual_address_fields_bounded (a : Int)
    (h1 : -(2 ^ 31) ≤ a) (h2 : a < 2 ^ 31) :
    (VirtualAddress.mk a).segment_number < 512 ∧
    (VirtualAddress.mk a).page_number < 1024 ∧
    (VirtualAddress.mk a).offset < 512 ∧
    (VirtualAddress.mk a).segment_and_page_number =
      (VirtualAddress.mk a).segment_number * 2 ^ 10 + (VirtualAddress.mk a).page_number ∧
    (VirtualAddress.mk a).segment_and_page_number < 2 ^ 19 := by
  refine ⟨(VirtualAddress.mk a).segment_number_lt, (VirtualAddress.mk a).page_number_lt,
    (VirtualAddress.mk a).offset_lt, ?_, ?_⟩
  · rw [VirtualAddress.segment_and_page_number, VirtualAddress.segment_number,
      VirtualAddress.page_number]
    generalize (VirtualAddress.mk a).discarded = v
    have e2 : 2 ^ 10 * (v / 2 ^ 9 / 2 ^ 10) + v / 2 ^ 9 % 2 ^ 10 = v / 2 ^ 9 :=
      Nat.div_add_mod (v / 2 ^ 9) (2 ^ 10)
    have e3 : v / 2 ^ 9 / 2 ^ 10 = v / 2 ^ 19 := by
      rw [Nat.div_div_eq_div_mul]
      norm_num
    omega
  · rw [VirtualAddress.segment_and_page_number]
    exact Nat.div_lt_of_lt_mul (by have := (VirtualAddress.mk a).discarded_lt; omega)

/-- Witness for C10 at the negative input -1. -/
theorem virtual_address_fields_bounded_witness :
    (-(2 ^ 31) ≤ (-1 : Int) ∧ (-1 : Int) < 2 ^ 31) ∧
      ((VirtualAddress.mk (-1)).segment_number < 512 ∧
      (VirtualAddress.mk (-1)).page_number < 1024 ∧
      (VirtualAddress.mk (-1)).offset < 512 ∧
      (VirtualAddress.mk (-1)).segment_and_page_number =
        (VirtualAddress.mk (-1)).segment_number * 2 ^ 10 + (VirtualAddress.mk (-1)).page_number ∧
      (VirtualAddress.mk (-1)).segment_and_page_number < 2 ^ 19) :=
  ⟨by decide, virtual_address_fields_bounded (-1) (by decide) (by decide)⟩

/-- Claim C1 (code bug): after the preload `create_page_table(5, -1)` sets
`ST[5] = -1`, the direct read of the address with segment 5 and page 0 first
evaluates `get_page_table(5, 0) = PM[PM[5] + 0] = PM[-1]` (vm_system.cpp line
84 before the fault check at line 87) — an out-of-bounds access — instead of
cleanly emitting `pf `. -/
theorem read_segment_fault_page_zero_oob :
    ∃ st, create_page_table initialVM 5 (-1) = some st ∧
      pmRead st 5 = some (-1) ∧
      (VirtualAddress.mk (5 * 2 ^ 19)).segment_number = 5 ∧
      (VirtualAddress.mk (5 * 2 ^ 19)).page_number = 0 ∧
      read_no_tlb st (VirtualAddress.mk (5 * 2 ^ 19)) = none :=
  ⟨_, rfl, rfl, rfl, rfl, rfl⟩

/-- Claim C2 (code bug): `init_cache` gives every entry `lru_value = 0`, so
after the very first `do_miss` on a capacity-2 TLB the occupied slot holds
`lru_value = 1` and the free slot -1 — not the claimed permutation {0, 1} —
and the second `do_miss` finds no entry with `lru_value == 0`:
`find_index_with_value(0)` returns `capacity` and the C++ code writes
`cache[2]`, out of bounds. -/
theorem tlb_lru_permutation_violated :
    ∃ t1, (TLB.mkClear 2).do_miss 10 100 = some t1 ∧
      (t1.cache 0).lru_value = 1 ∧ (t1.cache 0).sp = 10 ∧
      (t1.cache 1).lru_value = -1 ∧ (t1.cache 1).sp = -1 ∧
      t1.find_index_with_value 0 = 2 ∧
      t1.do_miss 20 200 = none :=
  ⟨_, rfl, rfl, rfl, rfl, rfl, rfl, rfl⟩

/-- Claim C8 (code bug): in the spec scenario `do_miss(10,100)` then
`do_miss(20,200)` on a capacity-2 TLB, the first miss stores key 10 at index
0, but the second miss fails to find a victim (no entry has `lru_value` 0)
and writes `cache[2]`, out of bounds; key 20 never enters the cache. -/
theorem tlb_scenario_second_miss_oob :
    ∃ t1, (TLB.mkClear 2).do_miss 10 100 = some t1 ∧
      t1.hit_index 10 = 0 ∧
      t1.hit_index 20 = -1 ∧
      t1.do_miss 20 200 = none :=
  ⟨_, rfl, rfl, rfl, rfl⟩

/-- Claim C9 (code bug): construction marks bit (0,0) for the segment-table
frame, but `VirtualMemorySystem::clear()` calls `BitMap::clear()`, which
resets every bit including (0,0), and never re-marks frame 0. -/
theorem clear_resets_frame_zero_bit :
    initialVM.bitMap.bits 0 = true ∧ initialVM.clear.bitMap.bits 0 = false :=
  ⟨rfl, rfl⟩

set_option maxRecDepth 100000 in
/-- Counterexample to claim C7 as stated: in the 32-row bitmap whose only free
bit is the last position (row 31, bit 31) no raster-adjacent free pair exists,
yet `find_consecutive_zeros` does not raise the allocation-exhausted
`MemoryException`: having found the zero at (31, 31), it probes the following
bit, which `check_bounds` places at row 32 — `array[32]`, out of bounds. -/
theorem fcz_last_bit_free_oob :
    (∀ n, 1 ≤ n → n + 1 < 32 * lastBitFreeBitMap.capacity →
      lastBitFreeBitMap.bits n = true ∨ lastBitFreeBitMap.bits (n + 1) = true) ∧
    lastBitFreeBitMap.find_consecutive_zeros = .error .oobRead := by
  constructor
  · intro n h1 h2
    left
    have hn : n ≠ 1023 := by
      simp only [lastBitFreeBitMap] at h2
      omega
    simp [lastBitFreeBitMap, hn]
  · rfl

/-- A pair returned by `find_consecutive_zeros`, read at linear position
`32 * r + b`: in range, both bits zero, and no earlier position from (0,1) on
starts a zero pair. -/
theorem BitMap.fcz_ok_linear (bm : BitMap) (r b : Nat)
    (h : bm.find_consecutive_zeros = .ok (r, b)) :
    b < 32 ∧ 1 ≤ 32 * r + b ∧ 32 * r + b + 1 < 32 * bm.capacity ∧
      bm.bits (32 * r + b) = false ∧ bm.bits (32 * r + b + 1) = false ∧
      ∀ m, 1 ≤ m → m < 32 * r + b → bm.bits m = true ∨ bm.bits (m + 1) = true := by
  unfold BitMap.find_consecutive_zeros at h
  cases hlin : bm.fczLin (32 * bm.capacity + 2) 1 with
  | error e => rw [hlin] at h; exact absurd h (by simp [Except.map])
  | ok n =>
    rw [hlin] at h
    simp only [Except.map, Except.ok.injEq, Prod.mk.injEq] at h
    obtain ⟨hr, hb⟩ := h
    obtain ⟨h1, h2, h3, h4, h5⟩ := bm.fczLin_ok _ _ _ hlin
    have hn : 32 * r + b = n := by
      rw [← hr, ← hb]
      omega
    rw [hn]
    exact ⟨by omega, h1, h2, h3, h4, fun m hm1 hm2 => h5 m hm1 hm2⟩

/-- Reading a bit of `BitMap.set` at a linear position. -/
theorem BitMap.set_bits (bm : BitMap) (index bit : Nat) (v : Bool) (m : Nat) :
    (bm.set index bit v).bits m = if m = index * 32 + bit then v else bm.bits m := rfl

/-- Setting a bit keeps the capacity. -/
theorem BitMap.set_capacity (bm : BitMap) (index bit : Nat) (v : Bool) :
    (bm.set index bit v).capacity = bm.capacity := rfl

/-- A pair returned by `find_first_zero`, read at linear position
`32 * r + b`: in range (from position 1 on) with a zero bit. -/
theorem BitMap.ffz_ok_linear (bm : BitMap) (r b : Nat)
    (h : bm.find_first_zero = .ok (r, b)) :
    b < 32 ∧ 1 ≤ 32 * r + b ∧ 32 * r + b < 32 * bm.capacity ∧
      bm.bits (32 * r + b) = false := by
  unfold BitMap.find_first_zero BitMap.find_zero_starting_from at h
  by_cases hcap : bm.capacity ≤ 0
  · rw [if_pos hcap] at h
    exact absurd h (by simp)
  · rw [if_neg hcap] at h
    cases hscan : bm.scanZero (0 * 32 + (if (1 : Nat) = 32 then 0 else 1)) with
    | none => rw [hscan] at h; exact absurd h (by simp)
    | some n =>
      rw [hscan] at h
      simp only [Except.ok.injEq, Prod.mk.injEq] at h
      obtain ⟨hr, hb⟩ := h
      have hstart : 0 * 32 + (if (1 : Nat) = 32 then 0 else 1) = 1 := by norm_num
      rw [hstart] at hscan
      obtain ⟨h1, h2, h3, _⟩ := bm.scanZero_some _ _ hscan
      have hn : 32 * r + b = n := by
        rw [← hr, ← hb]
        omega
      rw [hn]
      exact ⟨by omega, h1, h2, h3⟩

/-- If some bit from position 1 on is free, `find_first_zero` succeeds. -/
theorem BitMap.ffz_complete (bm : BitMap) (j : Nat) (hcap : 1 ≤ bm.capacity)
    (hj1 : 1 ≤ j) (hj2 : j < 32 * bm.capacity) (hbit : bm.bits j = false) :
    ∃ r b, bm.find_first_zero = .ok (r, b) := by
  obtain ⟨n, hn, _⟩ := bm.scanZero_isSome 1 j hj1 hj2 hbit
  refine ⟨n / 32, n % 32, ?_⟩
  unfold BitMap.find_first_zero BitMap.find_zero_starting_from
  rw [if_neg (by omega)]
  have hstart : 0 * 32 + (if (1 : Nat) = 32 then 0 else 1) = 1 := by norm_num
  rw [hstart, hn]

/-- Claim C6: whenever `find_consecutive_zeros` returns normally, the returned
pair is the first raster-scan position from (0,1) whose bit and immediately
following bit (with row carry) are both zero, and after both bits are marked
occupied a subsequent call never returns an overlapping pair. -/
theorem find_consecutive_zeros_first_pair (bm : BitMap) (r b : Nat)
    (h : bm.find_consecutive_zeros = .ok (r, b)) :
    FczFirstPairSpec bm r b := by
  obtain ⟨hb32, h1, h2, h3, h4, h5⟩ := bm.fcz_ok_linear r b h
  refine ⟨hb32, h1, h2, h3, h4, h5, fun r2 b2 h6 => ?_⟩
  obtain ⟨_, _, _, g3, g4, _⟩ := ((bm.set r b true).set r (b + 1) true).fcz_ok_linear r2 b2 h6
  have e1 : ((bm.set r b true).set r (b + 1) true).bits (32 * r + b) = true := by
    rw [BitMap.set_bits, BitMap.set_bits]
    rw [if_neg (by omega), if_pos (by omega)]
  have e2 : ((bm.set r b true).set r (b + 1) true).bits (32 * r + b + 1) = true := by
    rw [BitMap.set_bits]
    rw [if_pos (by omega)]
  refine ⟨?_, ?_, ?_, ?_⟩ <;> intro hcontra
  · rw [hcontra] at g3; rw [e1] at g3; exact absurd g3 (by simp)
  · rw [hcontra] at g3; rw [e2] at g3; exact absurd g3 (by simp)
  · rw [hcontra] at g4; rw [e1] at g4; exact absurd g4 (by simp)
  · rw [hcontra] at g4; rw [e2] at g4; exact absurd g4 (by simp)

/-- Witness for C6: on the constructor bitmap (only bit (0,0) set),
`find_consecutive_zeros` returns (0, 1) and the specification holds there. -/
theorem find_consecutive_zeros_first_pair_witness :
    initialVM.bitMap.find_consecutive_zeros = .ok (0, 1) ∧
      FczFirstPairSpec initialVM.bitMap 0 1 :=
  ⟨rfl, find_consecutive_zeros_first_pair initialVM.bitMap 0 1 rfl⟩

/-- Claim C7 (amended): when the bitmap has at least one row and no qualifying
free pattern remains — additionally requiring, for the pair search, that the
final bit is occupied — the search raises the allocation-exhausted
`MemoryException` (in particular no out-of-bounds row access and no
`std::out_of_range`); exhaustion is reported only through this error value,
never through the token output (the searches produce no output). -/
theorem bitmap_exhaustion_raises_memEx :
    (∀ bm : BitMap, 1 ≤ bm.capacity →
      (∀ n, 1 ≤ n → n < 32 * bm.capacity → bm.bits n = true) →
      bm.find_first_zero = .error .memEx) ∧
    (∀ bm : BitMap, 1 ≤ bm.capacity →
      (∀ n, 1 ≤ n → n + 1 < 32 * bm.capacity → bm.bits n = true ∨ bm.bits (n + 1) = true) →
      bm.bits (32 * bm.capacity - 1) = true →
      bm.find_consecutive_zeros = .error .memEx) := by
  constructor
  · intro bm hcap hfull
    unfold BitMap.find_first_zero BitMap.find_zero_starting_from
    rw [if_neg (by omega)]
    have hstart : 0 * 32 + (if (1 : Nat) = 32 then 0 else 1) = 1 := by norm_num
    rw [hstart]
    cases hscan : bm.scanZero 1 with
    | none => rfl
    | some n =>
      obtain ⟨h1, h2, h3, _⟩ := bm.scanZero_some _ _ hscan
      rw [hfull n h1 h2] at h3
      exact absurd h3 (by simp)
  · intro bm hcap hpair hlast
    unfold BitMap.find_consecutive_zeros
    rw [bm.fczLin_memEx _ _ hpair hlast]
    rfl

/-- Witness for C7 (amended) on the fully occupied 32-row bitmap. -/
theorem bitmap_exhaustion_raises_memEx_witness :
    fullBitMap.find_first_zero = .error .memEx ∧
      fullBitMap.find_consecutive_zeros = .error .memEx :=
  ⟨bitmap_exhaustion_raises_memEx.1 fullBitMap (by decide) (fun n h1 h2 => rfl),
   bitmap_exhaustion_raises_memEx.2 fullBitMap (by decide) (fun n h1 h2 => Or.inl rfl) rfl⟩

/-- Claim C5: the direct read path never mutates anything (the returned state
is the input state whenever the access succeeds), and a read of a
valid-but-unbacked address (segment or page entry 0, neither -1) emits
`err ` — hence every repetition emits `err ` again and no allocation ever
happens on a read. -/
theorem read_no_tlb_no_mutation_err :
    (∀ st va out st2, read_no_tlb st va = some (out, st2) → st2 = st) ∧
    (∀ st (va : VirtualAddress) ste pte,
      pmRead st (va.segment_number : Int) = some ste →
      get_page_table st va.segment_number va.page_number = some pte →
      ste ≠ -1 → pte ≠ -1 → (ste = 0 ∨ pte = 0) →
      read_no_tlb st va = some ([Tok.err, Tok.space], st)) := by
  constructor
  · intro st va out st2 h
    unfold read_no_tlb at h
    cases hste : pmRead st (va.segment_number : Int) with
    | none => rw [hste] at h; simp at h
    | some ste =>
      rw [hste] at h
      cases hpte : get_page_table st va.segment_number va.page_number with
      | none => rw [hpte] at h; simp at h
      | some pte =>
        rw [hpte] at h
        simp only [Option.bind_eq_bind, Option.some_bind] at h
        split_ifs at h <;> simp_all
  · intro st va ste pte hste hpte h1 h2 h3
    unfold read_no_tlb
    rw [hste, hpte]
    simp only [Option.bind_eq_bind, Option.some_bind]
    rw [if_neg (not_or.mpr ⟨h1, h2⟩), if_pos h3]
    rfl

/-- Witness for C5, second part: on the freshly constructed system the address
0 has segment entry 0 and page entry 0, and the read emits `err `. -/
theorem read_no_tlb_no_mutation_err_witness :
    read_no_tlb initialVM (VirtualAddress.mk 0) = some ([Tok.err, Tok.space], initialVM) :=
  read_no_tlb_no_mutation_err.2 initialVM (VirtualAddress.mk 0) 0 0 rfl rfl
    (by decide) (by decide) (Or.inl rfl)

theorem PM_SIZE_eq : PM_SIZE = 524288 := rfl

theorem pmRead_some (st : VMState) (i : Int) (h1 : 0 ≤ i) (h2 : i < PM_SIZE) :
    pmRead st i = some (st.pm i) := by
  simp [pmRead, h1, h2]

theorem pmRead_inv (st : VMState) (i x : Int) (h : pmRead st i = some x) :
    0 ≤ i ∧ i < PM_SIZE ∧ st.pm i = x := by
  unfold pmRead at h
  split_ifs at h with hc
  exact ⟨hc.1, hc.2, by injection h⟩

theorem pmWrite_some (st : VMState) (i v : Int) (h1 : 0 ≤ i) (h2 : i < PM_SIZE) :
    pmWrite st i v = some { st with pm := fun j => if j = i then v else st.pm j } := by
  simp [pmWrite, h1, h2]

/-- Evaluation of `allocate_new_page_table` when the pair search succeeds and
the segment entry is still 0. -/
theorem allocate_new_page_table_eq (st : VMState) (s r b : Nat)
    (hs : (s : Int) < PM_SIZE)
    (hST : pmRead st (s : Int) = some 0)
    (hfcz : st.bitMap.find_consecutive_zeros = .ok (r, b)) :
    allocate_new_page_table st s = some
      { pm := fun j => if j = (s : Int) then
            ((r * (512 * st.bitMap.capacity) + b * 512 : Nat) : Int) else st.pm j,
        bitMap := (st.bitMap.set r b true).set r (b + 1) true } := by
  simp only [allocate_new_page_table, hfcz]
  simp only [Option.bind_eq_bind]
  rw [hST]
  rw [Option.some_bind]
  rw [if_neg (by norm_num)]
  rw [pmWrite_some st (s : Int) _ (by omega) hs]
  rw [Option.some_bind]
  rw [if_pos (by omega)]
  rfl

/-- Evaluation of `allocate_new_page` when the single-frame search succeeds
and the page entry index is inside physical memory. -/
theorem allocate_new_page_eq (st : VMState) (s p r2 b2 : Nat) (pta : Int)
    (hpta : pmRead st (s : Int) = some pta)
    (hffz : st.bitMap.find_first_zero = .ok (r2, b2))
    (hidx1 : 0 ≤ pta + (p : Int)) (hidx2 : pta + (p : Int) < PM_SIZE) :
    allocate_new_page st s p = some
      { pm := fun j => if j = pta + (p : Int) then
            ((r2 * (512 * st.bitMap.capacity) + b2 * 512 : Nat) : Int) else st.pm j,
        bitMap := st.bitMap.set r2 b2 true } := by
  simp only [allocate_new_page, hffz]
  simp only [Option.bind_eq_bind]
  rw [hpta]
  rw [Option.some_bind]
  rw [pmWrite_some st _ _ hidx1 hidx2]
  rw [Option.some_bind]
  rfl

/-- Claim C3: a direct-path write to an address whose segment entry is 0 and
whose page-table probe is 0 (both unallocated), provided the bitmap still has
the needed free frames (the pair search succeeds and a further free frame
remains), performs exactly two internal allocation retries — first the 2-frame
page table via `find_consecutive_zeros`, then one data frame via
`find_first_zero` — terminates, and emits the resolved physical address; every
subsequent write to the same address emits the same stable resolved address
and performs no further allocation. -/
theorem write_demand_allocation_two_retries_stable
    (st : VMState) (va : VirtualAddress) (r b : Nat)
    (hcap : st.bitMap.capacity = 32)
    (hST : pmRead st (va.segment_number : Int) = some 0)
    (hPT : pmRead st (va.page_number : Int) = some 0)
    (hfcz : st.bitMap.find_consecutive_zeros = .ok (r, b))
    (hclean : pmRead st (((512 * (32 * r + b) : Nat) : Int) + (va.page_number : Int)) = some 0)
    (hfree : ∃ m, 1 ≤ m ∧ m < 1024 ∧ st.bitMap.bits m = false ∧
      m ≠ 32 * r + b ∧ m ≠ 32 * r + b + 1) :
    ∀ fuel, 3 ≤ fuel →
      ∃ st2 dta, 512 ≤ dta ∧
        write_no_tlb fuel st va =
          some ([Tok.addr (dta + (va.offset : Int)), Tok.space], st2, 2) ∧
        ∀ fuel2, 1 ≤ fuel2 →
          write_no_tlb fuel2 st2 va =
            some ([Tok.addr (dta + (va.offset : Int)), Tok.space], st2, 0) := by
  intro fuel hfuel
  obtain ⟨f, rfl⟩ : ∃ f, fuel = f + 1 + 1 + 1 := ⟨fuel - 3, by omega⟩
  have hs512 := va.segment_number_lt
  have hp1024 := va.page_number_lt
  obtain ⟨hb32, hn1, hn2cap, hbitn, hbitn1, hmin⟩ := st.bitMap.fcz_ok_linear r b hfcz
  rw [hcap] at hn2cap
  norm_num at hn2cap
  have hsi : (va.segment_number : Int) < PM_SIZE := by
    rw [PM_SIZE_eq]
    omega
  have step1 := allocate_new_page_table_eq st va.segment_number r b hsi hST hfcz
  obtain ⟨ptaE, hptaE⟩ :
      ∃ x : Int, x = ((r * (512 * st.bitMap.capacity) + b * 512 : Nat) : Int) := ⟨_, rfl⟩
  rw [← hptaE] at step1
  have hptaVal : ptaE = ((512 * (32 * r + b) : Nat) : Int) := by
    rw [hptaE, hcap]
    push_cast
    ring
  have hpta512 : 512 ≤ ptaE := by
    rw [hptaVal]
    push_cast
    omega
  obtain ⟨hidxLow, hidxHigh, hcleanVal⟩ := pmRead_inv st _ _ hclean
  rw [← hptaVal] at hidxLow hidxHigh hcleanVal
  obtain ⟨st1, step1, hst1pm, hst1bm⟩ :
      ∃ st1, allocate_new_page_table st va.segment_number = some st1 ∧
        st1.pm = (fun j => if j = (va.segment_number : Int) then ptaE else st.pm j) ∧
        st1.bitMap = (st.bitMap.set r b true).set r (b + 1) true :=
    ⟨_, step1, rfl, rfl⟩
  have hst1cap : st1.bitMap.capacity = 32 := by
    rw [hst1bm, BitMap.set_capacity, BitMap.set_capacity, hcap]
  have hst1read_s : pmRead st1 (va.segment_number : Int) = some ptaE := by
    rw [pmRead_some st1 _ (by omega) hsi]
    simp only [hst1pm]
    rw [if_pos trivial]
  have hst1read_pp : pmRead st1 (ptaE + (va.page_number : Int)) = some 0 := by
    rw [pmRead_some st1 _ hidxLow hidxHigh]
    simp only [hst1pm]
    rw [if_neg (by omega)]
    rw [hcleanVal]
  have hgpt1 : get_page_table st1 va.segment_number va.page_number = some 0 := by
    unfold get_page_table
    simp only [Option.bind_eq_bind]
    rw [hst1read_s, Option.some_bind]
    exact hst1read_pp
  obtain ⟨m, hm1, hm2, hmfree, hmne1, hmne2⟩ := hfree
  have hbm1m : st1.bitMap.bits m = false := by
    rw [hst1bm, BitMap.set_bits, BitMap.set_bits]
    rw [if_neg (by omega), if_neg (by omega)]
    exact hmfree
  obtain ⟨r2, b2, hffz⟩ :=
    st1.bitMap.ffz_complete m (by omega) hm1 (by rw [hst1cap]; omega) hbm1m
  obtain ⟨hb232, hn21, hn22cap, hbitn2⟩ := st1.bitMap.ffz_ok_linear r2 b2 hffz
  rw [hst1cap] at hn22cap
  norm_num at hn22cap
  have step2 := allocate_new_page_eq st1 va.segment_number va.page_number r2 b2 ptaE
    hst1read_s hffz hidxLow hidxHigh
  obtain ⟨nfaE, hnfaE⟩ :
      ∃ x : Int, x = ((r2 * (512 * st1.bitMap.capacity) + b2 * 512 : Nat) : Int) := ⟨_, rfl⟩
  rw [← hnfaE] at step2
  have hnfaVal : nfaE = ((512 * (32 * r2 + b2) : Nat) : Int) := by
    rw [hnfaE, hst1cap]
    push_cast
    ring
  have hnfa512 : 512 ≤ nfaE := by
    rw [hnfaVal]
    push_cast
    omega
  obtain ⟨st2, step2, hst2pm, hst2bm⟩ :
      ∃ st2, allocate_new_page st1 va.segment_number va.page_number = some st2 ∧
        st2.pm = (fun j => if j = ptaE + (va.page_number : Int) then nfaE else st1.pm j) ∧
        st2.bitMap = st1.bitMap.set r2 b2 true :=
    ⟨_, step2, rfl, rfl⟩
  have hst2read_s : pmRead st2 (va.segment_number : Int) = some ptaE := by
    rw [pmRead_some st2 _ (by omega) hsi]
    simp only [hst2pm, hst1pm]
    rw [if_neg (by omega), if_pos trivial]
  have hst2read_pp : pmRead st2 (ptaE + (va.page_number : Int)) = some nfaE := by
    rw [pmRead_some st2 _ hidxLow hidxHigh]
    simp only [hst2pm]
    rw [if_pos trivial]
  have hgpt2 : get_page_table st2 va.segment_number va.page_number = some nfaE := by
    unfold get_page_table
    simp only [Option.bind_eq_bind]
    rw [hst2read_s, Option.some_bind]
    exact hst2read_pp
  have hgpt0 : get_page_table st va.segment_number va.page_number = some 0 := by
    unfold get_page_table
    simp only [Option.bind_eq_bind]
    rw [hST, Option.some_bind, zero_add]
    exact hPT
  have e1 : ∀ g : Nat, write_no_tlb (g + 1) st2 va =
      some ([Tok.addr (nfaE + (va.offset : Int)), Tok.space], st2, 0) := by
    intro g
    rw [write_no_tlb]
    simp only [Option.bind_eq_bind]
    rw [hst2read_s, Option.some_bind, hgpt2, Option.some_bind]
    rw [if_neg (show ¬(ptaE = -1 ∨ nfaE = -1) by rintro (h | h) <;> omega)]
    rw [if_neg (show ¬(ptaE = 0) by omega)]
    rw [if_neg (show ¬(nfaE = 0) by omega)]
    rfl
  have e2 : ∀ g : Nat, write_no_tlb (g + 1 + 1) st1 va =
      some ([Tok.addr (nfaE + (va.offset : Int)), Tok.space], st2, 1) := by
    intro g
    rw [write_no_tlb]
    simp only [Option.bind_eq_bind]
    rw [hst1read_s, Option.some_bind, hgpt1, Option.some_bind]
    rw [if_neg (show ¬(ptaE = -1 ∨ (0 : Int) = -1) by rintro (h | h) <;> omega)]
    rw [if_neg (show ¬(ptaE = 0) by omega)]
    rw [if_pos (show (0 : Int) = 0 from rfl)]
    rw [step2, Option.some_bind, e1 g, Option.some_bind]
    rfl
  have e3 : write_no_tlb (f + 1 + 1 + 1) st va =
      some ([Tok.addr (nfaE + (va.offset : Int)), Tok.space], st2, 2) := by
    rw [write_no_tlb]
    simp only [Option.bind_eq_bind]
    rw [hST, Option.some_bind, hgpt0, Option.some_bind]
    rw [if_neg (show ¬((0 : Int) = -1 ∨ (0 : Int) = -1) by norm_num)]
    rw [if_pos (show (0 : Int) = 0 from rfl)]
    rw [step1, Option.some_bind, e2 f, Option.some_bind]
    rfl
  refine ⟨st2, nfaE, by omega, e3, ?_⟩
  intro fuel2 hfuel2
  obtain ⟨g, rfl⟩ : ∃ g, fuel2 = g + 1 := ⟨fuel2 - 1, by omega⟩
  exact e1 g

/-- Witness for C3: on the freshly constructed system, the write of address 0
(segment 0, page 0, both entries 0) allocates twice and resolves. -/
theorem write_demand_allocation_two_retries_stable_witness :
    ∃ st2 dta, 512 ≤ dta ∧
      write_no_tlb 3 initialVM (VirtualAddress.mk 0) =
        some ([Tok.addr (dta + ((VirtualAddress.mk 0).offset : Int)), Tok.space], st2, 2) ∧
      ∀ fuel2, 1 ≤ fuel2 →
        write_no_tlb fuel2 st2 (VirtualAddress.mk 0) =
          some ([Tok.addr (dta + ((VirtualAddress.mk 0).offset : Int)), Tok.space], st2, 0) :=
  write_demand_allocation_two_retries_stable initialVM (VirtualAddress.mk 0) 0 1
    rfl rfl rfl rfl rfl
    ⟨3, by norm_num, by norm_num, rfl, by norm_num, by norm_num⟩ 3 (by norm_num)
